import Mathlib

/-!
Shallow embedding of the AC-websocket-server core: the best-lap tracker
(src/best-lap-tracker.ts), the connection manager broadcast fan-out
(connection-manager.ts) and the producer message handler
(src/server.ts, handleInputConnection).

Module-level mutable maps (eventCache, pendingWrites, lastProcessedLap,
the client Map) are modelled as explicit state records holding association
lists; JS Map.set replaces the value of an existing key in place and
appends new keys, which aset mirrors.  Wall-clock reads
(Date.now / new Date().toISOString()) become an explicit now parameter of
type Int (milliseconds); the several toISOString() calls inside one
handler invocation are identified with that single now.  Disk content is
an association list from sanitized filename to parsed EventData; a
setTimeout write timer is a PendingWrite entry that a separate fireWrite
step executes.  JS falsiness of the number 0 and of undefined is modelled
explicitly (jsOrNum, the empty-string default of the event field).
-/

/-! Association-list operations modelling the JS Map API. -/

def alookup {β : Type} (k : String) : List (String × β) → Option β
  | [] => none
  | (k₁, v) :: t => if k₁ = k then some v else alookup k t

def aset {β : Type} (k : String) (v : β) : List (String × β) → List (String × β)
  | [] => [(k, v)]
  | (k₁, v₁) :: t => if k₁ = k then (k, v) :: t else (k₁, v₁) :: aset k v t

def adel {β : Type} (k : String) : List (String × β) → List (String × β)
  | [] => []
  | (k₁, v₁) :: t => if k₁ = k then t else (k₁, v₁) :: adel k t

/-! Data model of best-lap-tracker.ts. -/

/-- Entry of the lastProcessedLap throttle ledger. -/
structure LapEntry where
  lap : Int
  timestamp : Int
deriving DecidableEq

/-- BestLapRecord from best-lap-tracker.ts; the timestamp field holds the
capture time (the code stores it as an ISO string of that instant). -/
structure BestLapRecord where
  pilotName : String
  bestLapTime : Int
  car : String
  track : String
  timestamp : Int
  simNum : Int
deriving DecidableEq

/-- EventData from best-lap-tracker.ts; pilots is the JS record keyed by
pilot name. -/
structure EventData where
  eventName : String
  createdAt : Int
  lastUpdated : Int
  pilots : List (String × BestLapRecord)
deriving DecidableEq

/-- One pending debounced write: the setTimeout callback captured the
filename, the event name and the table value passed to saveEventData. -/
structure PendingWrite where
  scheduledAt : Int
  eventName : String
  data : EventData
deriving DecidableEq

/-- The module-level mutable state of best-lap-tracker.ts. -/
structure TrackerState where
  eventCache : List (String × EventData)
  pendingWrites : List (String × PendingWrite)
  lastProcessedLap : List (String × LapEntry)
deriving DecidableEq

/-- RawSimulatorData restricted to the fields the tracker reads; bestLap,
bestTime and event are optional in the TS interface. -/
structure RawSimulatorData where
  simNum : Int
  pilotName : String
  car : String
  track : String
  bestLap : Option Int
  bestTime : Option Int
  event : Option String
deriving DecidableEq

def WRITE_DEBOUNCE_MS : Int := 5000

def MIN_PROCESS_INTERVAL_MS : Int := 5000

def DEFAULT_EVENT : String := "default-event"

/-! sanitizeEventName: lowercase, replace maximal non-alphanumeric runs
by a single dash, strip one leading and one trailing dash (the effect of
the regex pipeline in the source). -/

def isLowerAlnum (c : Char) : Bool :=
  (decide (97 ≤ c.toNat) && decide (c.toNat ≤ 122)) ||
    (decide (48 ≤ c.toNat) && decide (c.toNat ≤ 57))

/-- Replacement of each maximal run of non-alphanumeric characters by one
dash, the effect of replace(.[^a-z0-9]+., dash) on a lowercased string;
the Bool flag records being inside such a run. -/
def collapseNonAlnum : Bool → List Char → List Char
  | _, [] => []
  | inRun, c :: rest =>
    if isLowerAlnum c then c :: collapseNonAlnum false rest
    else if inRun then collapseNonAlnum true rest
    else '-' :: collapseNonAlnum true rest

def dropLeadDash : List Char → List Char
  | '-' :: t => t
  | l => l

def dropTrailDash (l : List Char) : List Char :=
  (dropLeadDash l.reverse).reverse

/-- Removal of one leading and one trailing dash: the global regex with
alternatives anchored at start and end matches each at most once. -/
def trimEdgeDash (l : List Char) : List Char :=
  dropTrailDash (dropLeadDash l)

def jsToLower (s : String) : String :=
  String.mk (s.data.map Char.toLower)

def sanitizeEventName (eventName : String) : String :=
  String.mk (trimEdgeDash (collapseNonAlnum false (jsToLower eventName).data))

/-! A second derivation of the filename, written from the specification
text instead of the regex pipeline, for the refinement claim about
sanitizeEventName. -/

/-- Maximal runs of alphanumeric characters, in order; the accumulator
holds the current run reversed. -/
def alnumTokens : List Char → List Char → List (List Char)
  | [], cur => if cur.isEmpty then [] else [cur.reverse]
  | c :: rest, cur =>
    if isLowerAlnum c then alnumTokens rest (c :: cur)
    else if cur.isEmpty then alnumTokens rest []
    else cur.reverse :: alnumTokens rest []

/-- Joining of token runs by single separators. -/
def joinDash : List (List Char) → List Char
  | [] => []
  | [t] => t
  | t :: ts => t ++ '-' :: joinDash ts

/-- Derivation following the spec text: the event name lower-cased, every
maximal run of non-alphanumeric characters collapsed to a single
separator, leading and trailing separators removed — equivalently the
maximal alphanumeric tokens joined by single separators, with none at the
edges. -/
def specSanitize (s : String) : String :=
  String.mk (joinDash (alnumTokens (jsToLower s).data []))

/-! The tracker operations. -/

abbrev Disk := List (String × EventData)

/-- loadEventData: cache hit returns the cached table; otherwise the disk
file named by the sanitized event name is read, cached on success, and
absence (or a parse failure, both yielding null) returns none. -/
def loadEventData (eventName : String) (disk : Disk) (s : TrackerState) :
    TrackerState × Option EventData :=
  match alookup eventName s.eventCache with
  | some d => (s, some d)
  | none =>
    match alookup (sanitizeEventName eventName) disk with
    | some d => ({ s with eventCache := aset eventName d s.eventCache }, some d)
    | none => (s, none)

/-- saveEventData: the cache entry is replaced immediately; a pending
timer for the sanitized filename is cleared and a fresh one set
(aset performs the clearTimeout-and-replace pair on the pendingWrites
map), capturing the table value. -/
def saveEventData (eventName : String) (data : EventData) (now : Int)
    (s : TrackerState) : TrackerState :=
  let s₁ : TrackerState := { s with eventCache := aset eventName data s.eventCache }
  let filename := sanitizeEventName eventName
  { s₁ with pendingWrites := aset filename ⟨now, eventName, data⟩ s₁.pendingWrites }

/-- Execution of a pending debounce timer for a filename: the captured
table is written to the file and the pendingWrites entry deleted; the
returned flag records whether a write happened. -/
def fireWrite (filename : String) (s : TrackerState) (disk : Disk) :
    TrackerState × Disk × Bool :=
  match alookup filename s.pendingWrites with
  | some pw =>
    ({ s with pendingWrites := adel filename s.pendingWrites },
      aset filename pw.data disk, true)
  | none => (s, disk, false)

/-- invalidateCache: evicts one cache entry or clears the cache; the
pendingWrites and lastProcessedLap maps are not touched by the source. -/
def invalidateCache (eventName : Option String) (s : TrackerState) : TrackerState :=
  match eventName with
  | some n => { s with eventCache := adel n s.eventCache }
  | none => { s with eventCache := [] }

/-- JS disjunction of two optional numbers: 0 and undefined are falsy, so
a present 0 on the left falls through to the right operand. -/
def jsOrNum (a b : Option Int) : Option Int :=
  match a with
  | some x => if x = 0 then b else some x
  | none => b

/-- Event name of a sample: the event field when present and non-empty
(the empty string is falsy in JS), else the default. -/
def eventNameOf (d : RawSimulatorData) : String :=
  match d.event with
  | some e => if e = "" then DEFAULT_EVENT else e
  | none => DEFAULT_EVENT

/-- Candidate lap value: bestLap preferred, else bestTime, with JS
falsiness of 0. -/
def candidateOf (d : RawSimulatorData) : Option Int :=
  jsOrNum d.bestLap d.bestTime

def pilotKeyOf (d : RawSimulatorData) : String :=
  eventNameOf d ++ ":" ++ d.pilotName

/-- Throttle test of processBestLap: an entry for the pilot key whose
timestamp is within the window and whose stored lap equals the bestLap
field of the sample (the strict equality in the source is against
data.bestLap, not against the candidate). -/
def throttleHit (d : RawSimulatorData) (now : Int) (s : TrackerState) : Bool :=
  match alookup (pilotKeyOf d) s.lastProcessedLap with
  | some lp =>
    decide (now - lp.timestamp < MIN_PROCESS_INTERVAL_MS) &&
      decide (d.bestLap = some lp.lap)
  | none => false

/-- Observable outcome of one processBestLap call, mirroring which branch
of the source ran (the branches are distinguished by their log lines). -/
inductive Report where
  | invalidCandidate : Report
  | throttled : Report
  | notBetter : Report
  | accepted : BestLapRecord → Report
deriving DecidableEq

/-- Record built from the current sample on acceptance. -/
def mkRecord (d : RawSimulatorData) (bestLapTime now : Int) : BestLapRecord :=
  ⟨d.pilotName, bestLapTime, d.car, d.track, now, d.simNum⟩

/-- Table after an acceptance: the pilot record replaced wholesale by one
built from the sample, and lastUpdated refreshed. -/
def updatedTable (d : RawSimulatorData) (bestLapTime now : Int)
    (eventData : EventData) : EventData :=
  { eventData with
      pilots := aset d.pilotName (mkRecord d bestLapTime now) eventData.pilots,
      lastUpdated := now }

/-- Acceptance branch of processBestLap: the pilot record is replaced by
one built from the current sample, lastUpdated refreshed, and the updated
table handed to saveEventData. -/
def pbAccept (d : RawSimulatorData) (bestLapTime now : Int)
    (s₂ : TrackerState) (eventData : EventData) : TrackerState × Report :=
  (saveEventData (eventNameOf d) (updatedTable d bestLapTime now eventData) now s₂,
    Report.accepted (mkRecord d bestLapTime now))

/-- Ledger update of processBestLap: the pilot key is mapped to the
candidate value and the current time. -/
def ledgerSet (d : RawSimulatorData) (bestLapTime now : Int) (s : TrackerState) :
    TrackerState :=
  let l := aset (pilotKeyOf d) ⟨bestLapTime, now⟩ s.lastProcessedLap
  { s with lastProcessedLap := l }

/-- Body of processBestLap past the candidate and throttle guards: the
ledger entry is set, the event table loaded (a missing table becomes a
fresh one), and the improvement decision made (first record, or strictly
smaller candidate). -/
def pbCore (d : RawSimulatorData) (bestLapTime now : Int) (disk : Disk)
    (s : TrackerState) : TrackerState × Report :=
  let load := loadEventData (eventNameOf d) disk (ledgerSet d bestLapTime now s)
  let eventData := load.2.getD ⟨eventNameOf d, now, now, []⟩
  match alookup d.pilotName eventData.pilots with
  | none => pbAccept d bestLapTime now load.1 eventData
  | some ex =>
    if bestLapTime < ex.bestLapTime then pbAccept d bestLapTime now load.1 eventData
    else (load.1, Report.notBetter)

/-- processBestLap from best-lap-tracker.ts as a state transformer, with
a Report of the branch taken. -/
def processBestLap (d : RawSimulatorData) (now : Int) (disk : Disk)
    (s : TrackerState) : TrackerState × Report :=
  match candidateOf d with
  | none => (s, Report.invalidCandidate)
  | some bestLapTime =>
    if bestLapTime ≤ 0 then (s, Report.invalidCandidate)
    else if throttleHit d now s then (s, Report.throttled)
    else pbCore d bestLapTime now disk s

/-! Derived views used to state the claims. -/

/-- The table the reconciler would see for an event: cache first, else
the disk file under the sanitized name. -/
def viewTable (s : TrackerState) (disk : Disk) (eventName : String) :
    Option EventData :=
  match alookup eventName s.eventCache with
  | some d => some d
  | none => alookup (sanitizeEventName eventName) disk

def viewRecord (s : TrackerState) (disk : Disk) (eventName pilot : String) :
    Option BestLapRecord :=
  match viewTable s disk eventName with
  | some t => alookup pilot t.pilots
  | none => none

def storedBest (s : TrackerState) (disk : Disk) (eventName pilot : String) :
    Option Int :=
  (viewRecord s disk eventName pilot).map (fun r => r.bestLapTime)

/-- A run of processBestLap calls: final state and the trace of
(post-state, report) pairs. -/
def runProc (disk : Disk) :
    List (RawSimulatorData × Int) → TrackerState →
      TrackerState × List (TrackerState × Report)
  | [], s => (s, [])
  | (d, now) :: rest, s =>
    let p := processBestLap d now disk s
    let q := runProc disk rest p.1
    (q.1, (p.1, p.2) :: q.2)

/-- Candidate values of the accepted calls of a trace, in order. -/
def acceptedLaps : List Report → List Int
  | [] => []
  | Report.accepted r :: rest => r.bestLapTime :: acceptedLaps rest
  | _ :: rest => acceptedLaps rest

def listMin : List Int → Option Int
  | [] => none
  | x :: xs =>
    match listMin xs with
    | none => some x
    | some m => some (min x m)

def optMin : Option Int → Option Int → Option Int
  | none, b => b
  | some a, none => some a
  | some a, some b => some (min a b)

/-- The stored best for a key does not increase from s₁ to s₂ (and a
record never disappears). -/
def storedStep (disk : Disk) (ev p : String) (s₁ s₂ : TrackerState) : Prop :=
  match storedBest s₁ disk ev p, storedBest s₂ disk ev p with
  | some b₁, some b₂ => b₂ ≤ b₁
  | some _, none => False
  | none, _ => True

/-- Table the improvement decision works on: the visible table, or a
fresh one carrying the current time when none is visible. -/
def baseTableOf (s : TrackerState) (disk : Disk) (ev : String) (now : Int) :
    EventData :=
  (viewTable s disk ev).getD ⟨ev, now, now, []⟩

/-! Connection manager (connection-manager.ts). -/

def WS_OPEN : Int := 1

structure WsSocket where
  readyState : Int
  sendFails : Bool
deriving DecidableEq

inductive ClientType where
  | input : ClientType
  | output : ClientType
deriving DecidableEq

structure Client where
  id : String
  ws : WsSocket
  type : ClientType
  connectedAt : Int
  lastActivity : Int
  simulatorId : Option Int
deriving DecidableEq

def SIM_UPDATE : String := "simulator-update"

/-- OutputMessage from types.ts; JSON.stringify is deterministic, so the
single serialized string is identified with this structured value. -/
structure OutputMessage where
  type : String
  data : RawSimulatorData
  timestamp : Int
deriving DecidableEq

structure ConnectionManager where
  clients : List (String × Client)
  startTime : Int
  messageCount : Nat
deriving DecidableEq

def eligibleOutput (c : Client) : Bool :=
  decide (c.type = ClientType.output) && decide (c.ws.readyState = WS_OPEN)

structure BroadcastResult where
  clients : List (String × Client)
  sent : List (String × OutputMessage)
  sendErrors : List String
  sentCount : Nat
deriving DecidableEq

/-- The forEach loop of broadcastToOutputs: each OPEN output client is
sent the payload; a throwing send is caught, logged into sendErrors and
skipped, leaving that client's lastActivity untouched. -/
def broadcastLoop (payload : OutputMessage) (now : Int) :
    List (String × Client) → BroadcastResult
  | [] => ⟨[], [], [], 0⟩
  | (k, c) :: rest =>
    let r := broadcastLoop payload now rest
    if eligibleOutput c then
      if c.ws.sendFails then
        ⟨(k, c) :: r.clients, r.sent, c.id :: r.sendErrors, r.sentCount⟩
      else
        ⟨(k, { c with lastActivity := now }) :: r.clients,
          (c.id, payload) :: r.sent, r.sendErrors, r.sentCount + 1⟩
    else ⟨(k, c) :: r.clients, r.sent, r.sendErrors, r.sentCount⟩

def outputPayload (data : RawSimulatorData) (now : Int) : OutputMessage :=
  { type := SIM_UPDATE, data := data, timestamp := now }

/-- broadcastToOutputs: the message is built and serialized once, the
loop delivers it, and messageCount is incremented exactly once per call,
after the loop. -/
def broadcastToOutputs (data : RawSimulatorData) (now : Int)
    (cm : ConnectionManager) : ConnectionManager × BroadcastResult :=
  let r := broadcastLoop (outputPayload data now) now cm.clients
  ({ cm with clients := r.clients, messageCount := cm.messageCount + 1 }, r)

/-! Producer message handler (server.ts, handleInputConnection). -/

/-- Inbound data object as JSON.parse delivers it: each field the
validator inspects is present with the right primitive type or not. -/
structure DynData where
  simNum : Option Int
  pilotName : Option String
  car : Option String
  track : Option String
  bestLap : Option Int
  bestTime : Option Int
  event : Option String
deriving DecidableEq

structure ParsedInput where
  type : Option String
  data : Option DynData
deriving DecidableEq

/-- An inbound frame as the handler's try block sees it: JSON.parse
fails (unparseable), succeeds with the value null — on which reading
message.type throws a TypeError into the same catch (parsedNull) — or
succeeds with any non-null value, where every field read is total and an
absent or mistyped field is none (parsed; a non-object value such as a
number or an array reads every field as undefined). -/
inductive RawInbound where
  | unparseable : String → RawInbound
  | parsedNull : RawInbound
  | parsed : ParsedInput → RawInbound
deriving DecidableEq

inductive ServerReply where
  | errorReply : String → ServerReply
deriving DecidableEq

def FORMATO_MSG : String :=
  "Formato inválido. Esperado: \x7btype: \x27simulator-update\x27, data: \x7b...\x7d\x7d"

def DADOS_MSG : String :=
  "Dados inválidos. Campos obrigatórios: simNum (1-3), pilot-name, car, track"

/-- validateSimulatorData from server.ts. -/
def validateSimulatorData (d : DynData) : Bool :=
  match d.simNum, d.pilotName, d.car, d.track with
  | some n, some _, some _, some _ => decide (1 ≤ n) && decide (n ≤ 3)
  | _, _, _, _ => false

/-- Observable effects of one message-handler invocation. -/
structure HandlerOutcome where
  replies : List ServerReply
  broadcasted : Option DynData
  reconciled : Option DynData
  simIdBound : Option Int
  loggedParseError : Bool
deriving DecidableEq

def errorOutcome (msg : String) : HandlerOutcome :=
  { replies := [ServerReply.errorReply msg], broadcasted := none,
    reconciled := none, simIdBound := none, loggedParseError := false }

/-- The message handler of handleInputConnection: a JSON.parse failure,
and equally a frame parsing to null (whose message.type read throws),
is caught by the surrounding try and only logged, with no reply; a
parsed message with a wrong type or missing data gets the format error
reply; a message failing validateSimulatorData gets the data error
reply; otherwise the simulator id is bound and the sample is handed to
processBestLap and to broadcastToOutputs. -/
def handleInputMessage (m : RawInbound) : HandlerOutcome :=
  match m with
  | RawInbound.unparseable _ =>
    { replies := [], broadcasted := none, reconciled := none,
      simIdBound := none, loggedParseError := true }
  | RawInbound.parsedNull =>
    { replies := [], broadcasted := none, reconciled := none,
      simIdBound := none, loggedParseError := true }
  | RawInbound.parsed msg =>
    match msg.data with
    | none => errorOutcome FORMATO_MSG
    | some d =>
      if msg.type = some SIM_UPDATE then
        if validateSimulatorData d then
          { replies := [], broadcasted := some d, reconciled := some d,
            simIdBound := d.simNum, loggedParseError := false }
        else errorOutcome DADOS_MSG
      else errorOutcome FORMATO_MSG

/-- Last element of a list, with a default for the empty list. -/
def lastOr {α : Type} (u : α) : List α → α
  | [] => u
  | v :: tl => lastOr v tl

/-! Concrete fixtures used by witnesses and counterexamples. -/

def emptyState : TrackerState := ⟨[], [], []⟩

/-- Sample carrying its value in bestLap. -/
def sampleLap90 : RawSimulatorData := ⟨1, "p", "c", "t", some 90, none, some "e"⟩

/-- Sample carrying the same value in bestTime only. -/
def sampleTime90 : RawSimulatorData := ⟨1, "p", "c", "t", none, some 90, some "e"⟩

/-- Sample with no lap value at all. -/
def sampleNoLap : RawSimulatorData := ⟨1, "p", "c", "t", none, none, some "e"⟩

/-- Sample with an improving bestLap value. -/
def sampleLap80 : RawSimulatorData := ⟨1, "p", "c", "t", some 80, none, some "e"⟩

/-- State whose throttle ledger already holds 90 for the key of the
samples above, accepted at time 0. -/
def ledger90State : TrackerState := ⟨[], [], [("e:p", ⟨90, 0⟩)]⟩

/-- Event tables used by the store witnesses. -/
def tableA : EventData := ⟨"e", 0, 0, [("p", ⟨"p", 90, "c", "t", 0, 1⟩)]⟩

def tableB : EventData := ⟨"e", 0, 1, [("p", ⟨"p", 80, "c", "t", 1, 1⟩)]⟩

/-- State with a cached table and one pending write for its filename. -/
def statePend : TrackerState := ⟨[("e", tableA)], [("e", ⟨0, "e", tableA⟩)], []⟩

/-- Output client whose send succeeds, and one whose send throws. -/
def clientGood : Client := ⟨"g", ⟨1, false⟩, ClientType.output, 0, 0, none⟩

def clientBad : Client := ⟨"b", ⟨1, true⟩, ClientType.output, 0, 0, none⟩

/-- Connection manager holding the failing client before the good one. -/
def cmTwo : ConnectionManager := ⟨[("b", clientBad), ("g", clientGood)], 0, 0⟩

/-- Well-formed inbound data object and two malformed inbound messages. -/
def dynValid : DynData := ⟨some 1, some "p", some "c", some "t", none, none, none⟩

def dynNoPilot : DynData := ⟨some 1, none, some "c", some "t", none, none, none⟩

def msgWrongType : ParsedInput := ⟨some "other", some dynValid⟩

def msgBadData : ParsedInput := ⟨some SIM_UPDATE, some dynNoPilot⟩

/-! Lemmas about the association-list operations. -/

theorem alookup_aset_self {β : Type} (k : String) (v : β) (l : List (String × β)) :
    alookup k (aset k v l) = some v := by
  induction l with
  | nil => simp [aset, alookup]
  | cons hd tl ih =>
    obtain ⟨k₁, v₁⟩ := hd
    by_cases h : k₁ = k
    · simp [aset, alookup, h]
    · simp [aset, alookup, h, ih]

theorem alookup_aset_ne {β : Type} {k k₁ : String} (h : k₁ ≠ k) (v : β)
    (l : List (String × β)) : alookup k₁ (aset k v l) = alookup k₁ l := by
  induction l with
  | nil => simp [aset, alookup, Ne.symm h]
  | cons hd tl ih =>
    obtain ⟨k₂, v₂⟩ := hd
    by_cases h₂ : k₂ = k
    · subst h₂
      simp [aset, alookup, Ne.symm h]
    · simp [aset, alookup, h₂, ih]

/-! Lemmas about loadEventData and saveEventData. -/

theorem loadEventData_snd (e : String) (disk : Disk) (s : TrackerState) :
    (loadEventData e disk s).2 = viewTable s disk e := by
  unfold loadEventData viewTable
  cases h : alookup e s.eventCache with
  | some d => simp
  | none =>
    cases h₂ : alookup (sanitizeEventName e) disk with
    | some d => simp [h₂]
    | none => simp [h₂]

theorem loadEventData_viewTable (e e₁ : String) (disk : Disk) (s : TrackerState) :
    viewTable (loadEventData e disk s).1 disk e₁ = viewTable s disk e₁ := by
  unfold loadEventData
  cases h : alookup e s.eventCache with
  | some d => simp
  | none =>
    cases h₂ : alookup (sanitizeEventName e) disk with
    | none => simp
    | some d =>
      simp only []
      unfold viewTable
      by_cases he : e₁ = e
      · subst he
        simp [alookup_aset_self, h, h₂]
      · simp [alookup_aset_ne he]

theorem loadEventData_pendingWrites (e : String) (disk : Disk) (s : TrackerState) :
    (loadEventData e disk s).1.pendingWrites = s.pendingWrites := by
  unfold loadEventData
  cases h : alookup e s.eventCache with
  | some d => simp
  | none =>
    cases h₂ : alookup (sanitizeEventName e) disk with
    | some d => simp
    | none => simp

theorem saveEventData_viewTable_self (e : String) (data : EventData) (now : Int)
    (disk : Disk) (s : TrackerState) :
    viewTable (saveEventData e data now s) disk e = some data := by
  unfold saveEventData viewTable
  simp [alookup_aset_self]

theorem saveEventData_cache_self (e : String) (data : EventData) (now : Int)
    (s : TrackerState) :
    alookup e (saveEventData e data now s).eventCache = some data := by
  unfold saveEventData
  simp [alookup_aset_self]

theorem saveEventData_pending_self (e : String) (data : EventData) (now : Int)
    (s : TrackerState) :
    alookup (sanitizeEventName e) (saveEventData e data now s).pendingWrites =
      some ⟨now, e, data⟩ := by
  unfold saveEventData
  simp [alookup_aset_self]

theorem saveEventData_pending_ne {k : String} {e : String}
    (h : k ≠ sanitizeEventName e) (data : EventData) (now : Int) (s : TrackerState) :
    alookup k (saveEventData e data now s).pendingWrites =
      alookup k s.pendingWrites := by
  unfold saveEventData
  simp [alookup_aset_ne h]

/-! Lemmas about processBestLap. -/

theorem viewTable_ledgerSet (d : RawSimulatorData) (c now : Int) (disk : Disk)
    (s : TrackerState) (e : String) :
    viewTable (ledgerSet d c now s) disk e = viewTable s disk e := rfl

theorem viewRecord_congr {s₁ s₂ : TrackerState} {disk : Disk} {e p : String}
    (h : viewTable s₁ disk e = viewTable s₂ disk e) :
    viewRecord s₁ disk e p = viewRecord s₂ disk e p := by
  unfold viewRecord
  rw [h]

theorem pb_load_getD (d : RawSimulatorData) (c now : Int) (disk : Disk)
    (s : TrackerState) :
    ((loadEventData (eventNameOf d) disk (ledgerSet d c now s)).2.getD
        ⟨eventNameOf d, now, now, []⟩) = baseTableOf s disk (eventNameOf d) now := by
  rw [loadEventData_snd, viewTable_ledgerSet]
  rfl

theorem baseTable_lookup (s : TrackerState) (disk : Disk) (ev p : String) (now : Int) :
    alookup p (baseTableOf s disk ev now).pilots = viewRecord s disk ev p := by
  unfold baseTableOf viewRecord
  cases h : viewTable s disk ev with
  | some t => rfl
  | none => rfl

theorem pbAccept_snd (d : RawSimulatorData) (c now : Int) (s₂ : TrackerState)
    (ed : EventData) :
    (pbAccept d c now s₂ ed).2 = Report.accepted (mkRecord d c now) := rfl

theorem pbAccept_cache (d : RawSimulatorData) (c now : Int) (s₂ : TrackerState)
    (ed : EventData) :
    alookup (eventNameOf d) (pbAccept d c now s₂ ed).1.eventCache =
      some (updatedTable d c now ed) := by
  unfold pbAccept
  exact saveEventData_cache_self _ _ _ _

theorem pbAccept_viewRecord (d : RawSimulatorData) (c now : Int)
    (s₂ : TrackerState) (ed : EventData) (disk : Disk) :
    viewRecord (pbAccept d c now s₂ ed).1 disk (eventNameOf d) d.pilotName =
      some (mkRecord d c now) := by
  unfold viewRecord pbAccept
  rw [saveEventData_viewTable_self]
  simp [updatedTable, alookup_aset_self]

theorem pbCore_cases (d : RawSimulatorData) (c now : Int) (disk : Disk)
    (s : TrackerState) :
    pbCore d c now disk s =
      match viewRecord s disk (eventNameOf d) d.pilotName with
      | none =>
        pbAccept d c now (loadEventData (eventNameOf d) disk (ledgerSet d c now s)).1
          (baseTableOf s disk (eventNameOf d) now)
      | some ex =>
        if c < ex.bestLapTime then
          pbAccept d c now (loadEventData (eventNameOf d) disk (ledgerSet d c now s)).1
            (baseTableOf s disk (eventNameOf d) now)
        else ((loadEventData (eventNameOf d) disk (ledgerSet d c now s)).1,
          Report.notBetter) := by
  unfold pbCore
  dsimp only
  rw [pb_load_getD, baseTable_lookup]

theorem pb_eq_invalid_none {d : RawSimulatorData} {now : Int} {disk : Disk}
    {s : TrackerState} (h : candidateOf d = none) :
    processBestLap d now disk s = (s, Report.invalidCandidate) := by
  simp [processBestLap, h]

theorem pb_eq_invalid_nonpos {d : RawSimulatorData} {now : Int} {disk : Disk}
    {s : TrackerState} {c : Int} (hc : candidateOf d = some c) (h : c ≤ 0) :
    processBestLap d now disk s = (s, Report.invalidCandidate) := by
  simp [processBestLap, hc, h]

theorem pb_eq_throttled {d : RawSimulatorData} {now : Int} {disk : Disk}
    {s : TrackerState} {c : Int} (hc : candidateOf d = some c) (h : ¬ c ≤ 0)
    (ht : throttleHit d now s = true) :
    processBestLap d now disk s = (s, Report.throttled) := by
  simp [processBestLap, hc, h, ht]

theorem pb_eq_core {d : RawSimulatorData} {now : Int} {disk : Disk}
    {s : TrackerState} {c : Int} (hc : candidateOf d = some c) (h : ¬ c ≤ 0)
    (ht : throttleHit d now s = false) :
    processBestLap d now disk s = pbCore d c now disk s := by
  simp [processBestLap, hc, h, ht]

theorem pbCore_accept_none_eq {d : RawSimulatorData} {c now : Int} {disk : Disk}
    {s : TrackerState}
    (hex : viewRecord s disk (eventNameOf d) d.pilotName = none) :
    pbCore d c now disk s =
      pbAccept d c now (loadEventData (eventNameOf d) disk (ledgerSet d c now s)).1
        (baseTableOf s disk (eventNameOf d) now) := by
  rw [pbCore_cases, hex]

theorem pbCore_accept_some_eq {d : RawSimulatorData} {c now : Int} {disk : Disk}
    {s : TrackerState} {ex : BestLapRecord}
    (hex : viewRecord s disk (eventNameOf d) d.pilotName = some ex)
    (hlt : c < ex.bestLapTime) :
    pbCore d c now disk s =
      pbAccept d c now (loadEventData (eventNameOf d) disk (ledgerSet d c now s)).1
        (baseTableOf s disk (eventNameOf d) now) := by
  rw [pbCore_cases, hex]
  simp [hlt]

theorem pbCore_notBetter_eq {d : RawSimulatorData} {c now : Int} {disk : Disk}
    {s : TrackerState} {ex : BestLapRecord}
    (hex : viewRecord s disk (eventNameOf d) d.pilotName = some ex)
    (hlt : ¬ c < ex.bestLapTime) :
    pbCore d c now disk s =
      ((loadEventData (eventNameOf d) disk (ledgerSet d c now s)).1,
        Report.notBetter) := by
  rw [pbCore_cases, hex]
  simp [hlt]

theorem pbCore_snd_shape (d : RawSimulatorData) (c now : Int) (disk : Disk)
    (s : TrackerState) :
    (pbCore d c now disk s).2 = Report.notBetter ∨
      ∃ r, (pbCore d c now disk s).2 = Report.accepted r := by
  cases hex : viewRecord s disk (eventNameOf d) d.pilotName with
  | none =>
    rw [pbCore_accept_none_eq hex, pbAccept_snd]
    exact Or.inr ⟨_, rfl⟩
  | some ex =>
    by_cases hlt : c < ex.bestLapTime
    · rw [pbCore_accept_some_eq hex hlt, pbAccept_snd]
      exact Or.inr ⟨_, rfl⟩
    · rw [pbCore_notBetter_eq hex hlt]
      exact Or.inl rfl

theorem pb_not_accepted_viewTable {d : RawSimulatorData} {now : Int} {disk : Disk}
    {s : TrackerState}
    (h : ∀ r, (processBestLap d now disk s).2 ≠ Report.accepted r) (e₁ : String) :
    viewTable (processBestLap d now disk s).1 disk e₁ = viewTable s disk e₁ := by
  cases hc : candidateOf d with
  | none => rw [pb_eq_invalid_none hc]
  | some c =>
    by_cases hpos : c ≤ 0
    · rw [pb_eq_invalid_nonpos hc hpos]
    · cases ht : throttleHit d now s with
      | true => rw [pb_eq_throttled hc hpos ht]
      | false =>
        rw [pb_eq_core hc hpos ht] at h ⊢
        cases hex : viewRecord s disk (eventNameOf d) d.pilotName with
        | none =>
          exfalso
          exact h (mkRecord d c now) (by rw [pbCore_accept_none_eq hex, pbAccept_snd])
        | some ex =>
          by_cases hlt : c < ex.bestLapTime
          · exfalso
            exact h (mkRecord d c now)
              (by rw [pbCore_accept_some_eq hex hlt, pbAccept_snd])
          · rw [pbCore_notBetter_eq hex hlt]
            rw [loadEventData_viewTable]
            exact viewTable_ledgerSet d c now disk s e₁

theorem pb_accepted_facts {d : RawSimulatorData} {now : Int} {disk : Disk}
    {s : TrackerState} {r : BestLapRecord}
    (h : (processBestLap d now disk s).2 = Report.accepted r) :
    r = mkRecord d r.bestLapTime now ∧
    candidateOf d = some r.bestLapTime ∧ 0 < r.bestLapTime ∧
    viewRecord (processBestLap d now disk s).1 disk (eventNameOf d) d.pilotName =
      some r ∧
    ∀ old, viewRecord s disk (eventNameOf d) d.pilotName = some old →
      r.bestLapTime < old.bestLapTime := by
  cases hc : candidateOf d with
  | none =>
    rw [pb_eq_invalid_none hc] at h
    exact absurd h (by simp)
  | some c =>
    by_cases hpos : c ≤ 0
    · rw [pb_eq_invalid_nonpos hc hpos] at h
      exact absurd h (by simp)
    · cases ht : throttleHit d now s with
      | true =>
        rw [pb_eq_throttled hc hpos ht] at h
        exact absurd h (by simp)
      | false =>
        rw [pb_eq_core hc hpos ht] at h ⊢
        cases hex : viewRecord s disk (eventNameOf d) d.pilotName with
        | none =>
          rw [pbCore_accept_none_eq hex] at h ⊢
          rw [pbAccept_snd] at h
          have hr : r = mkRecord d c now := by
            cases h
            rfl
          subst hr
          refine ⟨by simp [mkRecord], ?_, not_le.mp hpos,
            pbAccept_viewRecord d c now _ _ disk, ?_⟩
          · simp [mkRecord, hc]
          · intro old hold
            simp at hold
        | some ex =>
          by_cases hlt : c < ex.bestLapTime
          · rw [pbCore_accept_some_eq hex hlt] at h ⊢
            rw [pbAccept_snd] at h
            have hr : r = mkRecord d c now := by
              cases h
              rfl
            subst hr
            refine ⟨by simp [mkRecord], ?_, not_le.mp hpos,
              pbAccept_viewRecord d c now _ _ disk, ?_⟩
            · simp [mkRecord, hc]
            · intro old hold
              injection hold with h₂
              subst h₂
              simpa [mkRecord] using hlt
          · rw [pbCore_notBetter_eq hex hlt] at h
            exact absurd h (by simp)

theorem throttleHit_eq_true {d : RawSimulatorData} {now : Int} {s : TrackerState}
    {lp : LapEntry} (hl : alookup (pilotKeyOf d) s.lastProcessedLap = some lp)
    (hw : now - lp.timestamp < MIN_PROCESS_INTERVAL_MS)
    (he : d.bestLap = some lp.lap) :
    throttleHit d now s = true := by
  unfold throttleHit
  rw [hl]
  simp [hw, he]

theorem throttleHit_eq_false_of_ne {d : RawSimulatorData} {now : Int}
    {s : TrackerState} {lp : LapEntry}
    (hl : alookup (pilotKeyOf d) s.lastProcessedLap = some lp)
    (hne : d.bestLap ≠ some lp.lap) :
    throttleHit d now s = false := by
  unfold throttleHit
  rw [hl]
  simp [hne]

/-- C4: a sample whose candidate lap value (bestLap preferred, else
bestTime, with 0 falsy) is absent or non-positive makes processBestLap a
complete no-op: the returned state is the input state — no cache access
or mutation, no throttle-ledger update, no write timer scheduled — and
the invalid-candidate branch is reported. -/
theorem c4_invalid_candidate_noop (d : RawSimulatorData) (now : Int) (disk : Disk)
    (s : TrackerState)
    (h : candidateOf d = none ∨ ∃ c, candidateOf d = some c ∧ c ≤ 0) :
    processBestLap d now disk s = (s, Report.invalidCandidate) := by
  rcases h with h | ⟨c, hc, hle⟩
  · exact pb_eq_invalid_none h
  · exact pb_eq_invalid_nonpos hc hle

/-- Witness for C4 at a concrete sample with neither bestLap nor
bestTime. -/
theorem c4_invalid_candidate_noop_witness :
    candidateOf sampleNoLap = none ∧
    processBestLap sampleNoLap 7 [] ledger90State =
      (ledger90State, Report.invalidCandidate) :=
  ⟨rfl, c4_invalid_candidate_noop sampleNoLap 7 [] ledger90State (Or.inl rfl)⟩

/-- C2: for a call that reaches the improvement decision (valid positive
candidate, throttle miss), the candidate is accepted iff no record exists
for the pilot in the visible table or the candidate is strictly below the
existing record's bestLapTime; on acceptance the pilot's record is
replaced wholesale by one built from the current sample (mkRecord) and
the table's lastUpdated is refreshed (updatedTable), the result being
cached; an equal or larger candidate leaves the table unchanged. -/
theorem c2_improvement_decision (d : RawSimulatorData) (now : Int) (disk : Disk)
    (s : TrackerState) (c : Int)
    (hc : candidateOf d = some c) (hpos : 0 < c)
    (ht : throttleHit d now s = false) :
    ((∃ r, (processBestLap d now disk s).2 = Report.accepted r) ↔
      (viewRecord s disk (eventNameOf d) d.pilotName = none ∨
        ∃ old, viewRecord s disk (eventNameOf d) d.pilotName = some old ∧
          c < old.bestLapTime)) ∧
    (∀ r, (processBestLap d now disk s).2 = Report.accepted r →
      r = mkRecord d c now ∧
      alookup (eventNameOf d) (processBestLap d now disk s).1.eventCache =
        some (updatedTable d c now (baseTableOf s disk (eventNameOf d) now))) ∧
    ((processBestLap d now disk s).2 = Report.notBetter →
      viewTable (processBestLap d now disk s).1 disk (eventNameOf d) =
        viewTable s disk (eventNameOf d)) := by
  have hpos' : ¬ c ≤ 0 := not_le.mpr hpos
  rw [pb_eq_core hc hpos' ht]
  cases hex : viewRecord s disk (eventNameOf d) d.pilotName with
  | none =>
    rw [pbCore_accept_none_eq hex]
    refine ⟨?_, ?_, ?_⟩
    · constructor
      · intro _
        exact Or.inl rfl
      · intro _
        exact ⟨mkRecord d c now, pbAccept_snd d c now _ _⟩
    · intro r hr
      rw [pbAccept_snd] at hr
      cases hr
      exact ⟨rfl, pbAccept_cache d c now _ _⟩
    · intro hnb
      rw [pbAccept_snd] at hnb
      cases hnb
  | some ex =>
    by_cases hlt : c < ex.bestLapTime
    · rw [pbCore_accept_some_eq hex hlt]
      refine ⟨?_, ?_, ?_⟩
      · constructor
        · intro _
          exact Or.inr ⟨ex, rfl, hlt⟩
        · intro _
          exact ⟨mkRecord d c now, pbAccept_snd d c now _ _⟩
      · intro r hr
        rw [pbAccept_snd] at hr
        cases hr
        exact ⟨rfl, pbAccept_cache d c now _ _⟩
      · intro hnb
        rw [pbAccept_snd] at hnb
        cases hnb
    · rw [pbCore_notBetter_eq hex hlt]
      refine ⟨?_, ?_, ?_⟩
      · constructor
        · intro hr
          obtain ⟨r, hr⟩ := hr
          cases hr
        · intro hor
          rcases hor with hor | ⟨old, hold, hlt₂⟩
          · cases hor
          · injection hold with h₂
            subst h₂
            exact absurd hlt₂ hlt
      · intro r hr
        cases hr
      · intro _
        rw [loadEventData_viewTable]
        exact viewTable_ledgerSet d c now disk s (eventNameOf d)

/-- Witness for C2: with an empty state and a bestLap-90 sample the
acceptance equivalence yields an accepted report. -/
theorem c2_improvement_decision_witness :
    candidateOf sampleLap90 = some 90 ∧ (0 : Int) < 90 ∧
    throttleHit sampleLap90 5 emptyState = false ∧
    ∃ r, (processBestLap sampleLap90 5 [] emptyState).2 = Report.accepted r :=
  ⟨rfl, by decide, by decide,
    ((c2_improvement_decision sampleLap90 5 [] emptyState 90 rfl (by decide)
      (by decide)).1).mpr (Or.inl (by decide))⟩

/-- C1 counterexample: a bestTime-only sample repeating exactly the value
held in the throttle ledger for its key, inside the window, is not a
no-op: the state changes (the ledger entry is rewritten and a record is
created and scheduled for writing) and the store is consulted. -/
theorem c1_throttle_counterexample :
    candidateOf sampleTime90 = some 90 ∧
    alookup (pilotKeyOf sampleTime90) ledger90State.lastProcessedLap =
      some ⟨90, 0⟩ ∧
    ((1000 : Int) - 0 < MIN_PROCESS_INTERVAL_MS) ∧
    (processBestLap sampleTime90 1000 [] ledger90State).1 ≠ ledger90State ∧
    (processBestLap sampleTime90 1000 [] ledger90State).2 =
      Report.accepted ⟨"p", 90, "c", "t", 1000, 1⟩ := by
  decide

/-- C1 amended: the suppression equality compares the ledger entry's lap
to the sample's bestLap field, not to the candidate value: with a ledger
entry for the key inside the throttle window, the call is a no-op exactly
when d.bestLap equals the stored lap; any other sample with a valid
candidate — in particular a repeated bestTime-only value, or a different
improving value — proceeds to the store evaluation. -/
theorem c1_throttle_bestLap_field (d : RawSimulatorData) (now : Int) (disk : Disk)
    (s : TrackerState) (c : Int) (lp : LapEntry)
    (hc : candidateOf d = some c) (hpos : 0 < c)
    (hl : alookup (pilotKeyOf d) s.lastProcessedLap = some lp)
    (hw : now - lp.timestamp < MIN_PROCESS_INTERVAL_MS) :
    (d.bestLap = some lp.lap →
      processBestLap d now disk s = (s, Report.throttled)) ∧
    (d.bestLap ≠ some lp.lap →
      (processBestLap d now disk s).2 = Report.notBetter ∨
        ∃ r, (processBestLap d now disk s).2 = Report.accepted r) := by
  have hpos' : ¬ c ≤ 0 := not_le.mpr hpos
  constructor
  · intro he
    exact pb_eq_throttled hc hpos' (throttleHit_eq_true hl hw he)
  · intro hne
    rw [pb_eq_core hc hpos' (throttleHit_eq_false_of_ne hl hne)]
    exact pbCore_snd_shape d c now disk s

/-- Witness for C1: the bestLap-90 repeat is suppressed, the
bestTime-only repeat of the same value is evaluated. -/
theorem c1_throttle_bestLap_field_witness :
    (candidateOf sampleLap90 = some 90 ∧
      processBestLap sampleLap90 1000 [] ledger90State =
        (ledger90State, Report.throttled)) ∧
    (candidateOf sampleTime90 = some 90 ∧
      ((processBestLap sampleTime90 1000 [] ledger90State).2 =
          Report.notBetter ∨
        ∃ r, (processBestLap sampleTime90 1000 [] ledger90State).2 =
          Report.accepted r)) :=
  ⟨⟨rfl, (c1_throttle_bestLap_field sampleLap90 1000 [] ledger90State 90 ⟨90, 0⟩
      rfl (by decide) (by decide) (by decide)).1 (by decide)⟩,
    ⟨rfl, (c1_throttle_bestLap_field sampleTime90 1000 [] ledger90State 90 ⟨90, 0⟩
      rfl (by decide) (by decide) (by decide)).2 (by decide)⟩⟩

/-! Run-level lemmas for the sequence claim. -/

theorem optMin_none_right (a : Option Int) : optMin a none = a := by
  cases a <;> rfl

theorem optMin_assoc (a b cc : Option Int) :
    optMin (optMin a b) cc = optMin a (optMin b cc) := by
  cases a <;> cases b <;> cases cc <;> simp [optMin, min_assoc]

theorem listMin_cons (x : Int) (xs : List Int) :
    listMin (x :: xs) = optMin (some x) (listMin xs) := by
  cases h : listMin xs <;> simp [listMin, h, optMin]

theorem acceptedLaps_cons_accepted (r : BestLapRecord) (l : List Report) :
    acceptedLaps (Report.accepted r :: l) = r.bestLapTime :: acceptedLaps l := rfl

theorem acceptedLaps_cons_other {rep : Report}
    (h : ∀ r, rep ≠ Report.accepted r) (l : List Report) :
    acceptedLaps (rep :: l) = acceptedLaps l := by
  cases rep with
  | accepted r => exact absurd rfl (h r)
  | invalidCandidate => rfl
  | throttled => rfl
  | notBetter => rfl

theorem storedStep_of_eq {disk : Disk} {ev p : String} {s₁ s₂ : TrackerState}
    (h : storedBest s₂ disk ev p = storedBest s₁ disk ev p) :
    storedStep disk ev p s₁ s₂ := by
  unfold storedStep
  rw [h]
  cases storedBest s₁ disk ev p with
  | none => trivial
  | some b => exact le_refl b

theorem storedStep_of_le {disk : Disk} {ev p : String} {s₁ s₂ : TrackerState}
    {b₂ : Int} (h₂ : storedBest s₂ disk ev p = some b₂)
    (hle : ∀ b₁, storedBest s₁ disk ev p = some b₁ → b₂ ≤ b₁) :
    storedStep disk ev p s₁ s₂ := by
  unfold storedStep
  rw [h₂]
  cases h₁ : storedBest s₁ disk ev p with
  | none => trivial
  | some b₁ => exact hle b₁ h₁

theorem pb_step_SB_not_accepted {d : RawSimulatorData} {now : Int} {disk : Disk}
    {s : TrackerState}
    (h : ∀ r, (processBestLap d now disk s).2 ≠ Report.accepted r) (ev p : String) :
    storedBest (processBestLap d now disk s).1 disk ev p =
      storedBest s disk ev p := by
  unfold storedBest
  rw [viewRecord_congr (pb_not_accepted_viewTable h ev)]

theorem pb_step_SB_accepted {d : RawSimulatorData} {now : Int} {disk : Disk}
    {s : TrackerState} {r : BestLapRecord} {ev p : String}
    (h : (processBestLap d now disk s).2 = Report.accepted r)
    (hev : eventNameOf d = ev) (hp : d.pilotName = p) :
    storedBest (processBestLap d now disk s).1 disk ev p = some r.bestLapTime ∧
    ∀ b, storedBest s disk ev p = some b → r.bestLapTime < b := by
  subst hev
  subst hp
  obtain ⟨_, _, _, h₄, h₅⟩ := pb_accepted_facts h
  constructor
  · unfold storedBest
    rw [h₄]
    rfl
  · intro b hb
    unfold storedBest at hb
    rw [Option.map_eq_some'] at hb
    obtain ⟨old, hold, hbl⟩ := hb
    rw [← hbl]
    exact h₅ old hold

theorem runProc_cons_fst (disk : Disk) (d : RawSimulatorData) (now : Int)
    (tl : List (RawSimulatorData × Int)) (s : TrackerState) :
    (runProc disk ((d, now) :: tl) s).1 =
      (runProc disk tl (processBestLap d now disk s).1).1 := by
  simp [runProc]

theorem runProc_cons_snd (disk : Disk) (d : RawSimulatorData) (now : Int)
    (tl : List (RawSimulatorData × Int)) (s : TrackerState) :
    (runProc disk ((d, now) :: tl) s).2 =
      ((processBestLap d now disk s).1, (processBestLap d now disk s).2) ::
        (runProc disk tl (processBestLap d now disk s).1).2 := by
  simp [runProc]

theorem runProc_min (disk : Disk) (ev p : String) :
    ∀ (calls : List (RawSimulatorData × Int)) (s : TrackerState),
      (∀ cl ∈ calls, eventNameOf cl.1 = ev ∧ cl.1.pilotName = p) →
      storedBest (runProc disk calls s).1 disk ev p =
        optMin (storedBest s disk ev p)
          (listMin (acceptedLaps (List.map (fun x => x.2) (runProc disk calls s).2))) ∧
      List.Chain' (storedStep disk ev p)
        (s :: List.map (fun x => x.1) (runProc disk calls s).2) := by
  intro calls
  induction calls with
  | nil =>
    intro s _
    refine ⟨?_, ?_⟩
    · simp [runProc, acceptedLaps, listMin, optMin_none_right]
    · simp [runProc]
  | cons hd tl ih =>
    obtain ⟨d, now⟩ := hd
    intro s h
    have hdev : eventNameOf d = ev := (h (d, now) (List.mem_cons_self _ _)).1
    have hdp : d.pilotName = p := (h (d, now) (List.mem_cons_self _ _)).2
    have htl : ∀ cl ∈ tl, eventNameOf cl.1 = ev ∧ cl.1.pilotName = p :=
      fun cl hcl => h cl (List.mem_cons_of_mem _ hcl)
    have ihs := ih (processBestLap d now disk s).1 htl
    rw [runProc_cons_fst, runProc_cons_snd]
    by_cases hacc : ∃ r, (processBestLap d now disk s).2 = Report.accepted r
    · obtain ⟨r, hrep⟩ := hacc
      obtain ⟨hSB1, hlt⟩ := pb_step_SB_accepted hrep hdev hdp
      constructor
      · rw [List.map_cons, hrep, acceptedLaps_cons_accepted, ihs.1, hSB1,
          listMin_cons, ← optMin_assoc]
        cases hSB0 : storedBest s disk ev p with
        | none => rfl
        | some b =>
          have hrb : r.bestLapTime < b := hlt b hSB0
          simp [optMin, min_eq_right (le_of_lt hrb)]
      · rw [List.map_cons, List.chain'_cons]
        exact ⟨storedStep_of_le hSB1 (fun b hb => le_of_lt (hlt b hb)), ihs.2⟩
    · have hna : ∀ r, (processBestLap d now disk s).2 ≠ Report.accepted r :=
        fun r hr => hacc ⟨r, hr⟩
      have hSBeq := pb_step_SB_not_accepted hna ev p
      constructor
      · rw [List.map_cons, acceptedLaps_cons_other hna, ihs.1, hSBeq]
      · rw [List.map_cons, List.chain'_cons]
        exact ⟨storedStep_of_eq hSBeq, ihs.2⟩

/-- C3: over any sequence of reconciler calls all targeting one
(event, pilot) pair, starting from a state in which no record for that
pilot is visible: the stored bestLapTime after the run equals the minimum
of the accepted candidate values; the stored value never increases from
one call to the next and a record never disappears (the Chain' of
storedStep); and a call whose candidate equals the stored bestLapTime
leaves the whole record — car, track, timestamp, simNum included —
unchanged, so ties keep the first-seen record. -/
theorem c3_min_accepted_monotone (disk : Disk) (ev p : String)
    (calls : List (RawSimulatorData × Int)) (s₀ : TrackerState)
    (hcalls : ∀ cl ∈ calls, eventNameOf cl.1 = ev ∧ cl.1.pilotName = p)
    (h₀ : viewRecord s₀ disk ev p = none) :
    storedBest (runProc disk calls s₀).1 disk ev p =
      listMin (acceptedLaps (List.map (fun x => x.2) (runProc disk calls s₀).2)) ∧
    List.Chain' (storedStep disk ev p)
      (s₀ :: List.map (fun x => x.1) (runProc disk calls s₀).2) ∧
    (∀ s d now r, eventNameOf d = ev → d.pilotName = p →
      viewRecord s disk ev p = some r → candidateOf d = some r.bestLapTime →
      viewRecord (processBestLap d now disk s).1 disk ev p =
        viewRecord s disk ev p) := by
  obtain ⟨h₁, h₂⟩ := runProc_min disk ev p calls s₀ hcalls
  have hSB0 : storedBest s₀ disk ev p = none := by
    unfold storedBest
    rw [h₀]
    rfl
  refine ⟨?_, h₂, ?_⟩
  · rw [h₁, hSB0]
    rfl
  · intro s d now r hev hp hvr hcand
    subst hev
    subst hp
    have hna : ∀ r₂, (processBestLap d now disk s).2 ≠ Report.accepted r₂ := by
      intro r₂ hr₂
      obtain ⟨_, hc₂, _, _, h₅⟩ := pb_accepted_facts hr₂
      have heq : r₂.bestLapTime = r.bestLapTime := by
        rw [hc₂] at hcand
        injection hcand
      have hlt := h₅ r hvr
      rw [heq] at hlt
      exact lt_irrefl _ hlt
    exact viewRecord_congr (pb_not_accepted_viewTable hna (eventNameOf d))

/-- Witness for C3 on a two-call run: 90 accepted, then an improving 80
accepted; the stored best equals the minimum of the accepted values. -/
theorem c3_min_accepted_monotone_witness :
    (∀ cl ∈ [(sampleLap90, (0 : Int)), (sampleLap80, 1000)],
      eventNameOf cl.1 = "e" ∧ cl.1.pilotName = "p") ∧
    viewRecord emptyState [] "e" "p" = none ∧
    storedBest (runProc [] [(sampleLap90, 0), (sampleLap80, 1000)] emptyState).1
        [] "e" "p" =
      listMin (acceptedLaps (List.map (fun x => x.2)
        (runProc [] [(sampleLap90, 0), (sampleLap80, 1000)] emptyState).2)) :=
  ⟨by decide, by decide,
    (c3_min_accepted_monotone [] "e" "p" [(sampleLap90, 0), (sampleLap80, 1000)]
      emptyState (by decide) (by decide)).1⟩

/-! Broadcast fan-out lemmas and claims. -/

theorem broadcastLoop_sent (payload : OutputMessage) (now : Int) :
    ∀ l : List (String × Client),
      (broadcastLoop payload now l).sent =
        List.map (fun kc => (kc.2.id, payload))
          (List.filter (fun kc => eligibleOutput kc.2 && !kc.2.ws.sendFails) l) := by
  intro l
  induction l with
  | nil => rfl
  | cons hd tl ih =>
    obtain ⟨k, c⟩ := hd
    by_cases he : eligibleOutput c = true
    · by_cases hf : c.ws.sendFails = true
      · simp [broadcastLoop, he, hf, ih]
      · simp [broadcastLoop, he, hf, ih]
    · simp [broadcastLoop, Bool.eq_false_iff.mpr he, ih]

theorem broadcastLoop_errors (payload : OutputMessage) (now : Int) :
    ∀ l : List (String × Client),
      (broadcastLoop payload now l).sendErrors =
        List.map (fun kc => kc.2.id)
          (List.filter (fun kc => eligibleOutput kc.2 && kc.2.ws.sendFails) l) := by
  intro l
  induction l with
  | nil => rfl
  | cons hd tl ih =>
    obtain ⟨k, c⟩ := hd
    by_cases he : eligibleOutput c = true
    · by_cases hf : c.ws.sendFails = true
      · simp [broadcastLoop, he, hf, ih]
      · simp [broadcastLoop, he, hf, ih]
    · simp [broadcastLoop, Bool.eq_false_iff.mpr he, ih]

/-- C5: one broadcastToOutputs call builds a single payload — the sample
wrapped as a simulator-update with one receipt timestamp, serialized once
(JSON.stringify being deterministic, the serialized string is identified
with the OutputMessage value) — and delivers exactly that payload to
every registered client of role output whose socket is OPEN and whose
send does not throw; the totalMessages counter increases by exactly 1 per
call, whatever the number of output clients, including zero. -/
theorem c5_broadcast_payload_counter (data : RawSimulatorData) (now : Int)
    (cm : ConnectionManager) :
    (broadcastToOutputs data now cm).1.messageCount = cm.messageCount + 1 ∧
    (broadcastToOutputs data now cm).2.sent =
      List.map (fun kc => (kc.2.id, outputPayload data now))
        (List.filter (fun kc => eligibleOutput kc.2 && !kc.2.ws.sendFails)
          cm.clients) ∧
    (∀ e ∈ (broadcastToOutputs data now cm).2.sent,
      e.2 = outputPayload data now) ∧
    (∀ k c, (k, c) ∈ cm.clients → eligibleOutput c = true →
      c.ws.sendFails = false →
      (c.id, outputPayload data now) ∈ (broadcastToOutputs data now cm).2.sent) := by
  have hsent : (broadcastToOutputs data now cm).2.sent =
      List.map (fun kc => (kc.2.id, outputPayload data now))
        (List.filter (fun kc => eligibleOutput kc.2 && !kc.2.ws.sendFails)
          cm.clients) :=
    broadcastLoop_sent (outputPayload data now) now cm.clients
  refine ⟨rfl, hsent, ?_, ?_⟩
  · intro e he
    rw [hsent] at he
    obtain ⟨kc, _, hkc⟩ := List.mem_map.mp he
    rw [← hkc]
  · intro k c hmem he hf
    rw [hsent]
    refine List.mem_map.mpr ⟨(k, c), ?_, rfl⟩
    exact List.mem_filter.mpr ⟨hmem, by simp [he, hf]⟩

/-- Witness for C5 on the two-client manager: the counter advances by one
and the good client receives the single payload. -/
theorem c5_broadcast_payload_counter_witness :
    (broadcastToOutputs sampleLap90 3 cmTwo).1.messageCount =
      cmTwo.messageCount + 1 ∧
    (clientGood.id, outputPayload sampleLap90 3) ∈
      (broadcastToOutputs sampleLap90 3 cmTwo).2.sent :=
  ⟨(c5_broadcast_payload_counter sampleLap90 3 cmTwo).1,
    (c5_broadcast_payload_counter sampleLap90 3 cmTwo).2.2.2 "g" clientGood
      (by decide) (by decide) (by decide)⟩

/-- C6: a throwing send is caught and logged for that recipient alone:
the failing client's id lands in the send-error log, every other eligible
client still receives the payload, and the call completes normally —
still counting exactly one broadcast — so no error reaches the producer
path (the model function is total; the source wraps each send in its own
try/catch). -/
theorem c6_send_failure_isolated (data : RawSimulatorData) (now : Int)
    (cm : ConnectionManager) (k : String) (b : Client)
    (hmem : (k, b) ∈ cm.clients) (helig : eligibleOutput b = true)
    (hfail : b.ws.sendFails = true) :
    b.id ∈ (broadcastToOutputs data now cm).2.sendErrors ∧
    (∀ k₁ c, (k₁, c) ∈ cm.clients → eligibleOutput c = true →
      c.ws.sendFails = false →
      (c.id, outputPayload data now) ∈ (broadcastToOutputs data now cm).2.sent) ∧
    (broadcastToOutputs data now cm).1.messageCount = cm.messageCount + 1 := by
  refine ⟨?_, ?_, rfl⟩
  · have herr : (broadcastToOutputs data now cm).2.sendErrors =
        List.map (fun kc => kc.2.id)
          (List.filter (fun kc => eligibleOutput kc.2 && kc.2.ws.sendFails)
            cm.clients) :=
      broadcastLoop_errors (outputPayload data now) now cm.clients
    rw [herr]
    refine List.mem_map.mpr ⟨(k, b), ?_, rfl⟩
    exact List.mem_filter.mpr ⟨hmem, by simp [helig, hfail]⟩
  · intro k₁ c hmem₁ he hf
    have hsent : (broadcastToOutputs data now cm).2.sent =
        List.map (fun kc => (kc.2.id, outputPayload data now))
          (List.filter (fun kc => eligibleOutput kc.2 && !kc.2.ws.sendFails)
            cm.clients) :=
      broadcastLoop_sent (outputPayload data now) now cm.clients
    rw [hsent]
    refine List.mem_map.mpr ⟨(k₁, c), ?_, rfl⟩
    exact List.mem_filter.mpr ⟨hmem₁, by simp [he, hf]⟩

/-- Witness for C6: with the failing client registered before the good
one, the failure is logged and the good client still receives. -/
theorem c6_send_failure_isolated_witness :
    clientBad.id ∈ (broadcastToOutputs sampleLap90 3 cmTwo).2.sendErrors ∧
    (clientGood.id, outputPayload sampleLap90 3) ∈
      (broadcastToOutputs sampleLap90 3 cmTwo).2.sent ∧
    (broadcastToOutputs sampleLap90 3 cmTwo).1.messageCount =
      cmTwo.messageCount + 1 :=
  ⟨(c6_send_failure_isolated sampleLap90 3 cmTwo "b" clientBad (by decide)
      (by decide) (by decide)).1,
    (c6_send_failure_isolated sampleLap90 3 cmTwo "b" clientBad (by decide)
      (by decide) (by decide)).2.1 "g" clientGood (by decide) (by decide)
      (by decide),
    (c6_send_failure_isolated sampleLap90 3 cmTwo "b" clientBad (by decide)
      (by decide) (by decide)).2.2⟩

/-! Event-store debounce lemmas and claims. -/

theorem aset_aset {β : Type} (k : String) (v₁ v₂ : β) (l : List (String × β)) :
    aset k v₂ (aset k v₁ l) = aset k v₂ l := by
  induction l with
  | nil => simp [aset]
  | cons hd tl ih =>
    obtain ⟨k₁, w⟩ := hd
    by_cases h : k₁ = k
    · simp [aset, h]
    · simp [aset, h, ih]

theorem adel_aset_of_none {β : Type} {k : String} {l : List (String × β)}
    (h : alookup k l = none) (v : β) : adel k (aset k v l) = l := by
  induction l with
  | nil => simp [aset, adel]
  | cons hd tl ih =>
    obtain ⟨k₁, w⟩ := hd
    by_cases hk : k₁ = k
    · rw [alookup] at h
      simp [hk] at h
    · rw [alookup] at h
      simp [hk] at h
      simp [aset, adel, hk, ih h]

theorem saveEventData_pendingWrites_eq (ev : String) (data : EventData)
    (now : Int) (s : TrackerState) :
    (saveEventData ev data now s).pendingWrites =
      aset (sanitizeEventName ev) ⟨now, ev, data⟩ s.pendingWrites := rfl

theorem foldl_save_pending (ev : String) :
    ∀ (updates : List (EventData × Int)) (u : EventData × Int) (s₀ : TrackerState),
      (List.foldl (fun st x => saveEventData ev x.1 x.2 st)
          (saveEventData ev u.1 u.2 s₀) updates).pendingWrites =
        aset (sanitizeEventName ev)
          ⟨(lastOr u updates).2, ev, (lastOr u updates).1⟩ s₀.pendingWrites := by
  intro updates
  induction updates with
  | nil =>
    intro u s₀
    rfl
  | cons v tl ih =>
    intro u s₀
    rw [List.foldl_cons]
    rw [ih v (saveEventData ev u.1 u.2 s₀)]
    rw [saveEventData_pendingWrites_eq, aset_aset]
    rfl

theorem fireWrite_of_pending {fn : String} {s : TrackerState} {pw : PendingWrite}
    (h : alookup fn s.pendingWrites = some pw) (disk : Disk) :
    fireWrite fn s disk =
      ({ s with pendingWrites := adel fn s.pendingWrites },
        aset fn pw.data disk, true) := by
  unfold fireWrite
  rw [h]

theorem fireWrite_of_none {fn : String} {s : TrackerState}
    (h : alookup fn s.pendingWrites = none) (disk : Disk) :
    fireWrite fn s disk = (s, disk, false) := by
  unfold fireWrite
  rw [h]

/-- C7: saveEventData replaces the cache entry for the event immediately —
a subsequent load returns the new table whatever the disk holds, hence
with no disk access — and cancels-and-replaces the pending timer for the
event's derived filename, leaving every other filename's timer alone; a
burst of further updates (each landing before the pending timer fires,
i.e. within the quiet period) keeps exactly one pending entry holding the
last update's data, the saves themselves never writing the disk; firing
that timer performs the one disk write, with the last data, and when no
timer for the filename predated the burst, a second firing is a no-op, so
the burst produces exactly one write. -/
theorem c7_put_cache_debounce (ev : String) (data : EventData) (now : Int)
    (s : TrackerState) :
    alookup ev (saveEventData ev data now s).eventCache = some data ∧
    (∀ disk : Disk, loadEventData ev disk (saveEventData ev data now s) =
      (saveEventData ev data now s, some data)) ∧
    alookup (sanitizeEventName ev) (saveEventData ev data now s).pendingWrites =
      some ⟨now, ev, data⟩ ∧
    (∀ k, k ≠ sanitizeEventName ev →
      alookup k (saveEventData ev data now s).pendingWrites =
        alookup k s.pendingWrites) ∧
    (∀ updates : List (EventData × Int),
      alookup (sanitizeEventName ev)
          (List.foldl (fun st u => saveEventData ev u.1 u.2 st)
            (saveEventData ev data now s) updates).pendingWrites =
        some ⟨(lastOr (data, now) updates).2, ev, (lastOr (data, now) updates).1⟩) ∧
    (∀ (updates : List (EventData × Int)) (disk : Disk),
      fireWrite (sanitizeEventName ev)
          (List.foldl (fun st u => saveEventData ev u.1 u.2 st)
            (saveEventData ev data now s) updates) disk =
        ({ List.foldl (fun st u => saveEventData ev u.1 u.2 st)
              (saveEventData ev data now s) updates with
            pendingWrites := adel (sanitizeEventName ev)
              (List.foldl (fun st u => saveEventData ev u.1 u.2 st)
                (saveEventData ev data now s) updates).pendingWrites },
          aset (sanitizeEventName ev) (lastOr (data, now) updates).1 disk,
          true)) ∧
    (alookup (sanitizeEventName ev) s.pendingWrites = none →
      ∀ (updates : List (EventData × Int)) (disk disk₂ : Disk),
        fireWrite (sanitizeEventName ev)
            (fireWrite (sanitizeEventName ev)
              (List.foldl (fun st u => saveEventData ev u.1 u.2 st)
                (saveEventData ev data now s) updates) disk).1 disk₂ =
          ((fireWrite (sanitizeEventName ev)
              (List.foldl (fun st u => saveEventData ev u.1 u.2 st)
                (saveEventData ev data now s) updates) disk).1, disk₂, false)) := by
  refine ⟨saveEventData_cache_self ev data now s, ?_, ?_, ?_, ?_, ?_, ?_⟩
  · intro disk
    unfold loadEventData
    rw [saveEventData_cache_self ev data now s]
  · exact saveEventData_pending_self ev data now s
  · intro k hk
    exact saveEventData_pending_ne hk data now s
  · intro updates
    rw [foldl_save_pending ev updates (data, now) s]
    exact alookup_aset_self _ _ _
  · intro updates disk
    have hp : alookup (sanitizeEventName ev)
        (List.foldl (fun st u => saveEventData ev u.1 u.2 st)
          (saveEventData ev data now s) updates).pendingWrites =
        some ⟨(lastOr (data, now) updates).2, ev, (lastOr (data, now) updates).1⟩ := by
      rw [foldl_save_pending ev updates (data, now) s]
      exact alookup_aset_self _ _ _
    exact fireWrite_of_pending hp disk
  · intro hnone updates disk disk₂
    have hp : alookup (sanitizeEventName ev)
        (List.foldl (fun st u => saveEventData ev u.1 u.2 st)
          (saveEventData ev data now s) updates).pendingWrites =
        some ⟨(lastOr (data, now) updates).2, ev, (lastOr (data, now) updates).1⟩ := by
      rw [foldl_save_pending ev updates (data, now) s]
      exact alookup_aset_self _ _ _
    rw [fireWrite_of_pending hp disk]
    apply fireWrite_of_none
    show alookup (sanitizeEventName ev)
        (adel (sanitizeEventName ev)
          (List.foldl (fun st u => saveEventData ev u.1 u.2 st)
            (saveEventData ev data now s) updates).pendingWrites) = none
    rw [foldl_save_pending ev updates (data, now) s, adel_aset_of_none hnone]
    exact hnone

/-- Witness for C7: two updates to the same event coalesce into one
pending write holding the second table, and firing writes that table. -/
theorem c7_put_cache_debounce_witness :
    alookup "e" (saveEventData "e" tableA 5 emptyState).eventCache =
      some tableA ∧
    alookup (sanitizeEventName "e")
        (List.foldl (fun st u => saveEventData "e" u.1 u.2 st)
          (saveEventData "e" tableA 5 emptyState) [(tableB, 6)]).pendingWrites =
      some ⟨6, "e", tableB⟩ ∧
    (fireWrite (sanitizeEventName "e")
        (fireWrite (sanitizeEventName "e")
          (List.foldl (fun st u => saveEventData "e" u.1 u.2 st)
            (saveEventData "e" tableA 5 emptyState) [(tableB, 6)]) []).1 []).2.2 =
      false :=
  ⟨(c7_put_cache_debounce "e" tableA 5 emptyState).1,
    (c7_put_cache_debounce "e" tableA 5 emptyState).2.2.2.2.1 [(tableB, 6)],
    by rw [(c7_put_cache_debounce "e" tableA 5 emptyState).2.2.2.2.2.2
        (by decide) [(tableB, 6)] [] []]⟩

/-- C10: invalidateCache — for one event or for the whole cache — leaves
the pending-write timer map (and the throttle ledger) untouched: no
pending debounced write is cancelled, and a write scheduled before the
invalidation still fires, writing the table captured at scheduling time
to disk even though the cache entry it came from has been evicted. -/
theorem c10_invalidate_keeps_timers (e : Option String) (s : TrackerState) :
    (invalidateCache e s).pendingWrites = s.pendingWrites ∧
    (invalidateCache e s).lastProcessedLap = s.lastProcessedLap ∧
    (e = none → (invalidateCache e s).eventCache = []) ∧
    (∀ fn pw disk, alookup fn s.pendingWrites = some pw →
      fireWrite fn (invalidateCache e s) disk =
        ({ invalidateCache e s with
            pendingWrites := adel fn s.pendingWrites },
          aset fn pw.data disk, true)) := by
  have hpend : (invalidateCache e s).pendingWrites = s.pendingWrites := by
    cases e <;> rfl
  have hled : (invalidateCache e s).lastProcessedLap = s.lastProcessedLap := by
    cases e <;> rfl
  refine ⟨hpend, hled, ?_, ?_⟩
  · intro he
    subst he
    rfl
  · intro fn pw disk hlook
    have hlook₂ : alookup fn (invalidateCache e s).pendingWrites = some pw := by
      rw [hpend]
      exact hlook
    rw [fireWrite_of_pending hlook₂ disk, hpend]

/-- Witness for C10: invalidating the cached event leaves its pending
write in place, and firing it still writes the captured table. -/
theorem c10_invalidate_keeps_timers_witness :
    (invalidateCache (some "e") statePend).pendingWrites =
      statePend.pendingWrites ∧
    fireWrite "e" (invalidateCache (some "e") statePend) [] =
      ({ invalidateCache (some "e") statePend with
          pendingWrites := adel "e" statePend.pendingWrites },
        aset "e" tableA [], true) :=
  ⟨(c10_invalidate_keeps_timers (some "e") statePend).1,
    (c10_invalidate_keeps_timers (some "e") statePend).2.2.2 "e" ⟨0, "e", tableA⟩
      [] (by decide)⟩

/-! Producer message handler claims. -/

/-- C8 counterexample: an inbound frame that fails JSON parsing — a
malformed message — is only logged by the surrounding catch: no error
acknowledgment (indeed no reply at all) is sent back to the producer,
refuting the claim that every malformed inbound message is acknowledged
with an error reply. -/
theorem c8_unparseable_counterexample :
    handleInputMessage (RawInbound.unparseable "this is not json") =
      ⟨[], none, none, none, true⟩ := by
  decide

/-- C8 amended: for inbound messages that parse to a non-null JSON
value, a wrong or missing type field or a missing data field yields the
format error acknowledgment, a data object failing validation yields the
data error acknowledgment, and in every reply-bearing case the sample is
neither broadcast nor handed to the reconciler; a message that fails
JSON parsing, and equally one that parses to null (reading its type
field throws into the same catch), is dropped with only a log — no
acknowledgment — and is likewise neither broadcast nor reconciled. -/
theorem c8_error_ack (msg : ParsedInput) :
    ((msg.type ≠ some SIM_UPDATE ∨ msg.data = none) →
      handleInputMessage (RawInbound.parsed msg) = errorOutcome FORMATO_MSG) ∧
    (∀ d, msg.data = some d → msg.type = some SIM_UPDATE →
      validateSimulatorData d = false →
      handleInputMessage (RawInbound.parsed msg) = errorOutcome DADOS_MSG) ∧
    (∀ reason,
      (handleInputMessage (RawInbound.parsed msg)).replies =
          [ServerReply.errorReply reason] →
      (handleInputMessage (RawInbound.parsed msg)).broadcasted = none ∧
      (handleInputMessage (RawInbound.parsed msg)).reconciled = none) ∧
    (∀ raw, handleInputMessage (RawInbound.unparseable raw) =
      ⟨[], none, none, none, true⟩) ∧
    handleInputMessage RawInbound.parsedNull = ⟨[], none, none, none, true⟩ := by
  refine ⟨?_, ?_, ?_, fun raw => rfl, rfl⟩
  · intro h
    cases hd : msg.data with
    | none => simp [handleInputMessage, hd]
    | some d =>
      rcases h with h | h
      · simp [handleInputMessage, hd, h]
      · rw [hd] at h
        cases h
  · intro d hd htype hval
    simp [handleInputMessage, hd, htype, hval]
  · intro reason hrep
    cases hd : msg.data with
    | none => simp [handleInputMessage, hd, errorOutcome]
    | some d =>
      by_cases htype : msg.type = some SIM_UPDATE
      · by_cases hval : validateSimulatorData d = true
        · exfalso
          simp [handleInputMessage, hd, htype, hval] at hrep
        · simp [handleInputMessage, hd, htype, hval, errorOutcome]
      · simp [handleInputMessage, hd, htype, errorOutcome]

/-- Witness for C8: a wrong-type message gets the format reply and a
validation failure gets the data reply, neither broadcast nor
reconciled; the null frame gets no reply at all. -/
theorem c8_error_ack_witness :
    handleInputMessage (RawInbound.parsed msgWrongType) =
      errorOutcome FORMATO_MSG ∧
    handleInputMessage (RawInbound.parsed msgBadData) =
      errorOutcome DADOS_MSG ∧
    (handleInputMessage (RawInbound.parsed msgWrongType)).broadcasted = none ∧
    (handleInputMessage (RawInbound.parsed msgBadData)).reconciled = none ∧
    (handleInputMessage RawInbound.parsedNull).replies = [] :=
  ⟨(c8_error_ack msgWrongType).1 (Or.inl (by decide)),
    (c8_error_ack msgBadData).2.1 dynNoPilot rfl rfl (by decide),
    ((c8_error_ack msgWrongType).2.2.1 FORMATO_MSG
      (by rw [(c8_error_ack msgWrongType).1 (Or.inl (by decide))]; rfl)).1,
    ((c8_error_ack msgBadData).2.2.1 DADOS_MSG
      (by rw [(c8_error_ack msgBadData).2.1 dynNoPilot rfl rfl (by decide)]; rfl)).2,
    congrArg HandlerOutcome.replies (c8_error_ack msgWrongType).2.2.2.2⟩

/-! Lemmas about sanitizeEventName. -/

theorem alnum_ne_dash {c : Char} (h : isLowerAlnum c = true) : c ≠ '-' := by
  intro he
  subst he
  exact absurd h (by decide)

theorem toLower_fix {c : Char} (h : isLowerAlnum c = true ∨ c = '-') :
    Char.toLower c = c := by
  rcases h with h | h
  · unfold isLowerAlnum at h
    simp only [Bool.or_eq_true, Bool.and_eq_true, decide_eq_true_eq] at h
    unfold Char.toLower
    have hn : ¬(c.toNat ≥ 65 ∧ c.toNat ≤ 90) := by omega
    simp [hn]
  · subst h
    decide

theorem dropLeadDash_cons_ne {c : Char} (h : c ≠ '-') (t : List Char) :
    dropLeadDash (c :: t) = c :: t := by
  simp [dropLeadDash, h]

theorem dropLeadDash_append {z : List Char} (hz : z ≠ []) (a : Char) :
    dropLeadDash (z ++ [a]) = dropLeadDash z ++ [a] := by
  cases z with
  | nil => exact absurd rfl hz
  | cons y ys =>
    by_cases hy : y = '-'
    · subst hy
      simp [dropLeadDash]
    · simp [List.cons_append, dropLeadDash_cons_ne hy]

theorem dropTrailDash_cons_ne {c : Char} (h : c ≠ '-') (X : List Char) :
    dropTrailDash (c :: X) = c :: dropTrailDash X := by
  cases X with
  | nil =>
    unfold dropTrailDash
    simp [dropLeadDash_cons_ne h]
    rfl
  | cons x xs =>
    unfold dropTrailDash
    rw [List.reverse_cons, dropLeadDash_append (by simp) c]
    simp

theorem dropTrailDash_cons_nonempty (a : Char) {X : List Char} (hX : X ≠ []) :
    dropTrailDash (a :: X) = a :: dropTrailDash X := by
  unfold dropTrailDash
  rw [List.reverse_cons, dropLeadDash_append (by simp [hX]) a]
  simp

theorem dropLeadDash_eq_nil {z : List Char} (h : dropLeadDash z = []) :
    z = [] ∨ z = ['-'] := by
  cases z with
  | nil => exact Or.inl rfl
  | cons y ys =>
    by_cases hy : y = '-'
    · subst hy
      rw [show dropLeadDash ('-' :: ys) = ys from rfl] at h
      subst h
      exact Or.inr rfl
    · rw [dropLeadDash_cons_ne hy] at h
      cases h

theorem dropTrailDash_eq_nil {Y : List Char} (h : dropTrailDash Y = []) :
    Y = [] ∨ Y = ['-'] := by
  unfold dropTrailDash at h
  rw [List.reverse_eq_nil_iff] at h
  rcases dropLeadDash_eq_nil h with h₂ | h₂
  · left
    rwa [List.reverse_eq_nil_iff] at h₂
  · right
    have := congrArg List.reverse h₂
    rwa [List.reverse_reverse] at this

theorem collapse_mem : ∀ (l : List Char) (b : Bool) (c : Char),
    c ∈ collapseNonAlnum b l → isLowerAlnum c = true ∨ c = '-' := by
  intro l
  induction l with
  | nil =>
    intro b c hc
    simp [collapseNonAlnum] at hc
  | cons x xs ih =>
    intro b c hc
    by_cases hx : isLowerAlnum x = true
    · simp only [collapseNonAlnum, hx, if_true] at hc
      rcases List.mem_cons.mp hc with h | h
      · exact Or.inl (h ▸ hx)
      · exact ih false c h
    · cases b with
      | true =>
        simp only [collapseNonAlnum, hx, if_false, if_true] at hc
        exact ih true c hc
      | false =>
        simp only [collapseNonAlnum, hx, if_false] at hc
        rcases List.mem_cons.mp hc with h | h
        · exact Or.inr h
        · exact ih true c h

theorem collapse_true_head : ∀ l : List Char,
    (collapseNonAlnum true l).head? ≠ some '-' := by
  intro l
  induction l with
  | nil => simp [collapseNonAlnum]
  | cons x xs ih =>
    by_cases hx : isLowerAlnum x = true
    · simp only [collapseNonAlnum, hx, if_true, List.head?_cons]
      intro he
      injection he with he₂
      exact alnum_ne_dash hx he₂
    · simp only [collapseNonAlnum, hx, if_false, if_true]
      exact ih

theorem collapse_noDD : ∀ (l : List Char) (b : Bool),
    List.Chain' (fun a b₂ => ¬(a = '-' ∧ b₂ = '-')) (collapseNonAlnum b l) := by
  intro l
  induction l with
  | nil =>
    intro b
    simp [collapseNonAlnum]
  | cons x xs ih =>
    intro b
    by_cases hx : isLowerAlnum x = true
    · simp only [collapseNonAlnum, hx, if_true]
      rw [List.chain'_cons']
      refine ⟨?_, ih false⟩
      intro y _ hpair
      exact alnum_ne_dash hx hpair.1
    · cases b with
      | true =>
        simp only [collapseNonAlnum, hx, if_false, if_true]
        exact ih true
      | false =>
        rw [show collapseNonAlnum false (x :: xs) =
          '-' :: collapseNonAlnum true xs by simp [collapseNonAlnum, hx]]
        rw [List.chain'_cons']
        refine ⟨?_, ih true⟩
        intro y hy hpair
        rw [Option.mem_def] at hy
        rw [hpair.2] at hy
        exact collapse_true_head xs hy

theorem collapse_true_eq : ∀ l : List Char,
    collapseNonAlnum true l = dropLeadDash (collapseNonAlnum false l) := by
  intro l
  cases l with
  | nil => rfl
  | cons x xs =>
    by_cases hx : isLowerAlnum x = true
    · simp only [collapseNonAlnum, hx, if_true]
      rw [dropLeadDash_cons_ne (alnum_ne_dash hx)]
    · simp only [collapseNonAlnum, hx, if_false, if_true]
      rfl

theorem dropLeadDash_ne_single {z : List Char}
    (h : List.Chain' (fun a b => ¬(a = '-' ∧ b = '-')) z) :
    dropLeadDash z ≠ ['-'] := by
  cases z with
  | nil => simp [dropLeadDash]
  | cons y ys =>
    by_cases hy : y = '-'
    · subst hy
      intro he
      rw [show dropLeadDash ('-' :: ys) = ys from rfl] at he
      subst he
      rw [List.chain'_cons] at h
      exact h.1 ⟨rfl, rfl⟩
    · rw [dropLeadDash_cons_ne hy]
      intro he
      injection he with h₁ h₂
      exact hy h₁

theorem alnumTokens_mem_ne_nil : ∀ (l cur t : List Char),
    t ∈ alnumTokens l cur → t ≠ [] := by
  intro l
  induction l with
  | nil =>
    intro cur t ht
    by_cases hc : cur.isEmpty = true
    · simp [alnumTokens, hc] at ht
    · simp only [alnumTokens, hc, if_false] at ht
      rcases List.mem_singleton.mp ht with h
      subst h
      simp only [ne_eq, List.reverse_eq_nil_iff]
      intro h₂
      subst h₂
      exact hc rfl
  | cons x xs ih =>
    intro cur t ht
    by_cases hx : isLowerAlnum x = true
    · simp only [alnumTokens, hx, if_true] at ht
      exact ih (x :: cur) t ht
    · by_cases hc : cur.isEmpty = true
      · simp only [alnumTokens, hx, if_false, hc, if_true] at ht
        exact ih [] t ht
      · simp only [alnumTokens, hx, if_false, hc] at ht
        rcases List.mem_cons.mp ht with h | h
        · subst h
          simp only [ne_eq, List.reverse_eq_nil_iff]
          intro h₂
          subst h₂
          exact hc rfl
        · exact ih [] t h

theorem joinDash_cons_ne_nil {t : List Char} {ts : List (List Char)}
    (ht : t ≠ []) : joinDash (t :: ts) ≠ [] := by
  cases ts with
  | nil => exact ht
  | cons u us =>
    rw [show joinDash (t :: u :: us) = t ++ '-' :: joinDash (u :: us) from rfl]
    simp

theorem collapse_cons_alnum {x : Char} (hx : isLowerAlnum x = true) (b : Bool)
    (xs : List Char) :
    collapseNonAlnum b (x :: xs) = x :: collapseNonAlnum false xs := by
  cases b <;> simp [collapseNonAlnum, hx]

theorem collapse_cons_other_false {x : Char} (hx : ¬ isLowerAlnum x = true)
    (xs : List Char) :
    collapseNonAlnum false (x :: xs) = '-' :: collapseNonAlnum true xs := by
  simp [collapseNonAlnum, hx]

theorem tokens_cons_alnum {x : Char} (hx : isLowerAlnum x = true)
    (xs cur : List Char) :
    alnumTokens (x :: xs) cur = alnumTokens xs (x :: cur) := by
  simp [alnumTokens, hx]

theorem tokens_cons_other_empty {x : Char} (hx : ¬ isLowerAlnum x = true)
    (xs : List Char) :
    alnumTokens (x :: xs) [] = alnumTokens xs [] := by
  simp [alnumTokens, hx]

theorem tokens_cons_other_ne {x : Char} (hx : ¬ isLowerAlnum x = true)
    (xs : List Char) {cur : List Char} (hc : cur ≠ []) :
    alnumTokens (x :: xs) cur = cur.reverse :: alnumTokens xs [] := by
  have h : cur.isEmpty = false := by
    cases cur with
    | nil => exact absurd rfl hc
    | cons a t => rfl
  simp [alnumTokens, hx, h]

theorem tokens_nil_ne {cur : List Char} (hc : cur ≠ []) :
    alnumTokens [] cur = [cur.reverse] := by
  have h : cur.isEmpty = false := by
    cases cur with
    | nil => exact absurd rfl hc
    | cons a t => rfl
  simp [alnumTokens, h]

theorem collapse_tokens : ∀ l : List Char,
    trimEdgeDash (collapseNonAlnum false l) = joinDash (alnumTokens l []) ∧
    ∀ cur : List Char, cur ≠ [] →
      joinDash (alnumTokens l cur) =
        cur.reverse ++ dropTrailDash (collapseNonAlnum false l) := by
  intro l
  induction l with
  | nil =>
    constructor
    · rfl
    · intro cur hcur
      rw [tokens_nil_ne hcur]
      show cur.reverse = cur.reverse ++ ([] : List Char)
      rw [List.append_nil]
  | cons x xs ih =>
    obtain ⟨ihm, iha⟩ := ih
    by_cases hx : isLowerAlnum x = true
    · have hxd : x ≠ '-' := alnum_ne_dash hx
      have hmain : trimEdgeDash (collapseNonAlnum false (x :: xs)) =
          joinDash (alnumTokens (x :: xs) []) := by
        rw [collapse_cons_alnum hx, tokens_cons_alnum hx]
        unfold trimEdgeDash
        rw [dropLeadDash_cons_ne hxd, dropTrailDash_cons_ne hxd]
        rw [iha [x] (by simp)]
        rfl
      refine ⟨hmain, ?_⟩
      intro cur hcur
      rw [collapse_cons_alnum hx, tokens_cons_alnum hx]
      rw [iha (x :: cur) (by simp)]
      rw [dropTrailDash_cons_ne hxd]
      rw [List.reverse_cons, List.append_assoc]
      rfl
    · have hmain : trimEdgeDash (collapseNonAlnum false (x :: xs)) =
          joinDash (alnumTokens (x :: xs) []) := by
        rw [collapse_cons_other_false hx, tokens_cons_other_empty hx]
        unfold trimEdgeDash
        rw [show dropLeadDash ('-' :: collapseNonAlnum true xs) =
          collapseNonAlnum true xs from rfl]
        rw [collapse_true_eq xs]
        exact ihm
      refine ⟨hmain, ?_⟩
      intro cur hcur
      rw [collapse_cons_other_false hx, tokens_cons_other_ne hx xs hcur]
      rw [collapse_true_eq xs]
      cases hA : alnumTokens xs [] with
      | nil =>
        have hT : dropTrailDash (dropLeadDash (collapseNonAlnum false xs)) = [] := by
          have h₂ := ihm
          rw [hA] at h₂
          exact h₂
        have hY : dropLeadDash (collapseNonAlnum false xs) = [] := by
          rcases dropTrailDash_eq_nil hT with h | h
          · exact h
          · exact absurd h (dropLeadDash_ne_single (collapse_noDD xs false))
        rw [hY]
        rw [show joinDash [cur.reverse] = cur.reverse from rfl]
        rw [show dropTrailDash ['-'] = [] from rfl]
        rw [List.append_nil]
      | cons t ts =>
        have hne : joinDash (t :: ts) ≠ [] :=
          joinDash_cons_ne_nil (alnumTokens_mem_ne_nil xs [] t
            (by rw [hA]; exact List.mem_cons_self t ts))
        have hT : dropTrailDash (dropLeadDash (collapseNonAlnum false xs)) =
            joinDash (t :: ts) := by
          have h₂ := ihm
          rw [hA] at h₂
          exact h₂
        have hYne : dropLeadDash (collapseNonAlnum false xs) ≠ [] := by
          intro h0
          rw [h0] at hT
          apply hne
          rw [← hT]
          rfl
        rw [dropTrailDash_cons_nonempty '-' hYne]
        rw [hT]
        rw [show joinDash (cur.reverse :: t :: ts) =
          cur.reverse ++ '-' :: joinDash (t :: ts) from rfl]

theorem mem_dropLeadDash {c : Char} {z : List Char} (h : c ∈ dropLeadDash z) :
    c ∈ z := by
  cases z with
  | nil => exact h
  | cons y ys =>
    by_cases hy : y = '-'
    · subst hy
      rw [show dropLeadDash ('-' :: ys) = ys from rfl] at h
      exact List.mem_cons_of_mem _ h
    · rwa [dropLeadDash_cons_ne hy] at h

theorem mem_dropTrailDash {c : Char} {z : List Char} (h : c ∈ dropTrailDash z) :
    c ∈ z := by
  unfold dropTrailDash at h
  rw [List.mem_reverse] at h
  have h₂ := mem_dropLeadDash h
  rwa [List.mem_reverse] at h₂

theorem chain_dropLeadDash {R : Char → Char → Prop} {z : List Char}
    (h : List.Chain' R z) : List.Chain' R (dropLeadDash z) := by
  cases z with
  | nil => exact h
  | cons y ys =>
    by_cases hy : y = '-'
    · subst hy
      exact (List.chain'_cons'.mp h).2
    · rwa [dropLeadDash_cons_ne hy]

theorem chain_symm_reverse {z : List Char}
    (h : List.Chain' (fun a b => ¬(a = '-' ∧ b = '-')) z) :
    List.Chain' (fun a b => ¬(a = '-' ∧ b = '-')) z.reverse := by
  rw [List.chain'_reverse]
  exact h.imp (fun a b hab => fun hpair => hab ⟨hpair.2, hpair.1⟩)

theorem chain_dropTrailDash {z : List Char}
    (h : List.Chain' (fun a b => ¬(a = '-' ∧ b = '-')) z) :
    List.Chain' (fun a b => ¬(a = '-' ∧ b = '-')) (dropTrailDash z) := by
  unfold dropTrailDash
  exact chain_symm_reverse (chain_dropLeadDash (chain_symm_reverse h))

theorem head_dropLeadDash_ne {z : List Char}
    (h : List.Chain' (fun a b => ¬(a = '-' ∧ b = '-')) z) :
    (dropLeadDash z).head? ≠ some '-' := by
  cases z with
  | nil => simp [dropLeadDash]
  | cons y ys =>
    by_cases hy : y = '-'
    · subst hy
      rw [show dropLeadDash ('-' :: ys) = ys from rfl]
      cases ys with
      | nil => simp
      | cons a t =>
        rw [List.chain'_cons] at h
        simp only [List.head?_cons, ne_eq, Option.some.injEq]
        intro ha
        exact h.1 ⟨rfl, ha⟩
    · rw [dropLeadDash_cons_ne hy]
      simp only [List.head?_cons, ne_eq, Option.some.injEq]
      exact hy

theorem head_dropTrailDash_ne {w : List Char} (h : w.head? ≠ some '-') :
    (dropTrailDash w).head? ≠ some '-' := by
  cases w with
  | nil => simp [dropTrailDash, dropLeadDash]
  | cons a X =>
    have ha : a ≠ '-' := by
      simp only [List.head?_cons, ne_eq, Option.some.injEq] at h
      exact h
    cases hX : X with
    | nil =>
      rw [dropTrailDash_cons_ne ha]
      simp only [List.head?_cons, ne_eq, Option.some.injEq]
      exact ha
    | cons b Y =>
      rw [dropTrailDash_cons_nonempty a (by simp)]
      simp only [List.head?_cons, ne_eq, Option.some.injEq]
      exact ha

theorem dropLeadDash_of_head_ne {z : List Char} (h : z.head? ≠ some '-') :
    dropLeadDash z = z := by
  cases z with
  | nil => rfl
  | cons y ys =>
    have hy : y ≠ '-' := by
      simp only [List.head?_cons, ne_eq, Option.some.injEq] at h
      exact h
    exact dropLeadDash_cons_ne hy ys

theorem dropTrailDash_of_last_ne {z : List Char} (h : z.getLast? ≠ some '-') :
    dropTrailDash z = z := by
  unfold dropTrailDash
  rw [dropLeadDash_of_head_ne (by rwa [List.head?_reverse])]
  exact List.reverse_reverse z

theorem map_toLower_fix : ∀ l : List Char,
    (∀ c ∈ l, isLowerAlnum c = true ∨ c = '-') →
    List.map Char.toLower l = l := by
  intro l
  induction l with
  | nil => intro _; rfl
  | cons x xs ih =>
    intro h
    rw [List.map_cons, toLower_fix (h x (List.mem_cons_self x xs)),
      ih (fun c hc => h c (List.mem_cons_of_mem x hc))]

theorem collapse_fix : ∀ l : List Char,
    (∀ c ∈ l, isLowerAlnum c = true ∨ c = '-') →
    List.Chain' (fun a b => ¬(a = '-' ∧ b = '-')) l →
    l.getLast? ≠ some '-' →
    collapseNonAlnum false l = l := by
  intro l
  induction l with
  | nil => intro _ _ _; rfl
  | cons x rest ih =>
    intro hcs hch hlast
    rcases hcs x (List.mem_cons_self x rest) with hx | hx
    · rw [collapse_cons_alnum hx]
      have hrest : rest.getLast? ≠ some '-' := by
        cases rest with
        | nil => simp
        | cons r rs => rwa [List.getLast?_cons_cons] at hlast
      rw [ih (fun c hc => hcs c (List.mem_cons_of_mem x hc))
        (List.chain'_cons'.mp hch).2 hrest]
    · subst hx
      cases rest with
      | nil => exact absurd rfl hlast
      | cons a rs =>
        rw [List.chain'_cons] at hch
        have ha : a ≠ '-' := fun h => hch.1 ⟨rfl, h⟩
        rcases hcs a (List.mem_cons_of_mem _ (List.mem_cons_self a rs)) with ha₂ | ha₂
        · rw [collapse_cons_other_false (by decide)]
          rw [collapse_cons_alnum ha₂]
          have hfix : collapseNonAlnum false (a :: rs) = a :: rs := by
            apply ih (fun c hc => hcs c (List.mem_cons_of_mem _ hc)) hch.2
            rwa [List.getLast?_cons_cons] at hlast
          rw [collapse_cons_alnum ha₂] at hfix
          rw [hfix]
        · exact absurd ha₂ ha

/-- C9: sanitizeEventName equals the derivation the spec describes — the
name lower-cased, every maximal run of non-alphanumeric characters
collapsed to a single separator, leading and trailing separators removed
(specSanitize) — and in particular it is idempotent and its output holds
only lowercase letters, digits and dashes, with no two adjacent dashes
and no dash at either edge. -/
theorem c9_sanitize_spec (s : String) :
    sanitizeEventName s = specSanitize s ∧
    sanitizeEventName (sanitizeEventName s) = sanitizeEventName s ∧
    (∀ c ∈ (sanitizeEventName s).data, isLowerAlnum c = true ∨ c = '-') ∧
    List.Chain' (fun a b => ¬(a = '-' ∧ b = '-')) (sanitizeEventName s).data ∧
    (sanitizeEventName s).data.head? ≠ some '-' ∧
    (sanitizeEventName s).data.getLast? ≠ some '-' := by
  set l := (jsToLower s).data with hl
  have hcs : ∀ c ∈ trimEdgeDash (collapseNonAlnum false l),
      isLowerAlnum c = true ∨ c = '-' := by
    intro c hc
    unfold trimEdgeDash at hc
    exact collapse_mem l false c (mem_dropLeadDash (mem_dropTrailDash hc))
  have hch : List.Chain' (fun a b => ¬(a = '-' ∧ b = '-'))
      (trimEdgeDash (collapseNonAlnum false l)) := by
    unfold trimEdgeDash
    exact chain_dropTrailDash (chain_dropLeadDash (collapse_noDD l false))
  have hhead : (trimEdgeDash (collapseNonAlnum false l)).head? ≠ some '-' := by
    unfold trimEdgeDash
    exact head_dropTrailDash_ne (head_dropLeadDash_ne (collapse_noDD l false))
  have hlast : (trimEdgeDash (collapseNonAlnum false l)).getLast? ≠ some '-' := by
    unfold trimEdgeDash dropTrailDash
    rw [← List.head?_reverse, List.reverse_reverse]
    exact head_dropLeadDash_ne
      (chain_symm_reverse (chain_dropLeadDash (collapse_noDD l false)))
  refine ⟨?_, ?_, hcs, hch, hhead, hlast⟩
  · exact congrArg String.mk (collapse_tokens l).1
  · have h₁ : (jsToLower (sanitizeEventName s)).data =
        trimEdgeDash (collapseNonAlnum false l) :=
      map_toLower_fix _ hcs
    show String.mk (trimEdgeDash (collapseNonAlnum false
      (jsToLower (sanitizeEventName s)).data)) = sanitizeEventName s
    rw [h₁, collapse_fix _ hcs hch hlast]
    show String.mk (dropTrailDash (dropLeadDash
      (trimEdgeDash (collapseNonAlnum false l)))) = sanitizeEventName s
    rw [dropLeadDash_of_head_ne hhead, dropTrailDash_of_last_ne hlast]
    rfl

/-- Witness for C9 at a concrete event name. -/
theorem c9_sanitize_spec_witness :
    sanitizeEventName "Cup A!  2024" = specSanitize "Cup A!  2024" ∧
    sanitizeEventName "Cup A!  2024" = "cup-a-2024" :=
  ⟨(c9_sanitize_spec "Cup A!  2024").1, by decide⟩
